import Mathlib

/-!
# store-image-service: job lifecycle of `main.go`

A shallow embedding of the job registry (`jobs`, `jobIDSeq`), of
`submitJobHandler`, `processJob`, `getJobStatusHandler` and `atoi`, followed by
the properties proved about them.

Modelling conventions.

* Go `int` is the 64-bit two's-complement integer: arithmetic on it is done in
  `Int` and reduced with `wrapInt`.
* Go strings are Lean strings; a scanner reads them rune by rune (`String.data`).
* A `*Job` is an address into `Server.heap`; the `jobs` map sends an identifier
  to such an address.
* The two external collaborators are parameters: `StoreMaster` (the table filled
  by `loadStoreMaster`) and the fetcher `downloadImage`, whose failure is
  represented by the text of the Go error.
* A `processJob` goroutine is stepped at two granularities: `procStep` takes one
  critical section per step, `procWrite` one write to the job per step. The states of
  the server (`reach`) are those reached by single writes, because
  `getJobStatusHandler` reads the job without taking its lock.
* `time.Sleep` has no effect on the state and is left out.
-/

namespace StoreImageService

/-! ## Data model -/

/-- Go `int` on a 64-bit platform: the representative of `x` in `[-2^63, 2^63)`. -/
def wrapInt (x : Int) : Int := (x + 2 ^ 63) % 2 ^ 64 - 2 ^ 63

/-- Value stored in `StoreMaster` for a store identifier. -/
structure StoreInfo where
  StoreName : String
  AreaCode : String
deriving DecidableEq, Repr

/-- The map `StoreMaster`: `sm id = none` is Go's `exists == false`. -/
abbrev StoreMaster := String → Option StoreInfo

/-- Store visit with image links. -/
structure Visit where
  StoreID : String
  ImageURLs : List String
  VisitTime : String
deriving DecidableEq, Repr

/-- Error recorded for a store identifier. -/
structure JobError where
  StoreID : String
  Error : String
deriving DecidableEq, Repr

/-- The struct `Job` without its mutex. -/
structure Job where
  JobID : Int
  Visits : List Visit
  Status : String
  Errors : List JobError
deriving DecidableEq, Repr

/-- Body of the answer to a successful submission. -/
structure JobResponse where
  JobID : Int
deriving DecidableEq, Repr

/-- Body of the answer to a status request; `JobID` echoes the query parameter. -/
structure JobStatusResponse where
  Status : String
  JobID : String
  Errors : List JobError
deriving DecidableEq, Repr

/-- The `error` member of the encoded `JobStatusResponse`: the tag
`json:"error,omitempty"` leaves the member out when the slice is empty. -/
def JobStatusResponse.errorField (r : JobStatusResponse) : Option (List JobError) :=
  if r.Errors = [] then none else some r.Errors

/-- What a handler writes after the status line. -/
inductive ResponseBody where
  | text (msg : String)
  | jobResponse (r : JobResponse)
  | statusResponse (r : JobStatusResponse)
deriving DecidableEq, Repr

/-- An HTTP answer: status code and body. -/
structure Response where
  code : Nat
  body : ResponseBody
deriving DecidableEq, Repr

/-- The decoded image as far as `processJob` looks at it: `img.Bounds().Dx()` and
`img.Bounds().Dy()`. -/
structure Image where
  Dx : Int
  Dy : Int
deriving DecidableEq, Repr

/-- The function `downloadImage` seen from `processJob`: the image, or the text of the
returned error. -/
abbrev Fetcher := String → Except String Image

/-- One line printed by `processJob`: store identifier, URL, perimeter. -/
structure Printed where
  StoreID : String
  URL : String
  Perimeter : Int
deriving DecidableEq, Repr

/-- The job as one call of `processJob` sees it, with what that call has done so far:
`fetched` lists the calls of `downloadImage` (store identifier of the visit, URL) and
`printed` the lines written by `fmt.Printf`, both in program order. -/
structure Run where
  job : Job
  fetched : List (String × String)
  printed : List Printed
deriving DecidableEq, Repr

/-- Control point of a `processJob` goroutine: at the head of the loop over the visits
with the visits still to come; at the head of the loop over the URLs of a visit whose
store is known; inside a critical section, between the write of `job.Status` and the
append to `job.Errors` of the error `e` (lines 156 to 157 for an unknown store, lines 166
to 167 for a failed download); or returned. -/
inductive ProcPC where
  | outer (visits : List Visit)
  | inner (storeID : String) (urls : List String) (visits : List Visit)
  | outerAppend (e : JobError) (visits : List Visit)
  | innerAppend (e : JobError) (storeID : String) (urls : List String) (visits : List Visit)
  | done
deriving DecidableEq, Repr

/-- A heap-allocated `Job` together with the goroutine `go processJob(job)` started on it. -/
structure Cell where
  run : Run
  pc : ProcPC
deriving DecidableEq, Repr

/-- The package-level state: the allocated jobs, the map `jobs` from identifier to the
address of a job, and the counter `jobIDSeq`. -/
structure Server where
  heap : List Cell
  jobs : List (Int × Nat)
  jobIDSeq : Int
deriving DecidableEq, Repr

/-- The state after the `var` block: `jobs = make(map[int]*Job)`, `jobIDSeq = 0`. -/
def initServer : Server := ⟨[], [], 0⟩

/-- Map read `jobs[i]`: the most recent binding of `i`. -/
def mapGet : List (Int × Nat) → Int → Option Nat
  | [], _ => none
  | (k, a) :: m, i => if i = k then some a else mapGet m i

/-- Map write `jobs[i] = a`. -/
def mapSet (m : List (Int × Nat)) (i : Int) (a : Nat) : List (Int × Nat) := (i, a) :: m

/-! ## `submitJobHandler` -/

/-- A request to `/api/submit/`: the method, and what `json.Decode` makes of the body,
`none` when it returns an error, otherwise the fields `Count` and `Visits`. -/
structure SubmitRequest where
  Method : String
  Body : Option (Int × List Visit)
deriving DecidableEq, Repr

/-- The literal `&Job{JobID: id, Visits: visits, Status: "ongoing"}`. -/
def newJob (id : Int) (visits : List Visit) : Job :=
  { JobID := id, Visits := visits, Status := "ongoing", Errors := [] }

/-- The goroutine `go processJob(job)` before its first step. -/
def spawn (job : Job) : Cell := ⟨⟨job, [], []⟩, ProcPC.outer job.Visits⟩

/-- The handler `submitJobHandler`: new state and answer. -/
def submitJobHandler (s : Server) (r : SubmitRequest) : Server × Response :=
  if r.Method ≠ "POST" then
    (s, ⟨405, ResponseBody.text "Invalid request method"⟩)
  else
    match r.Body with
    | none => (s, ⟨400, ResponseBody.text "Invalid JSON payload"⟩)
    | some (count, visits) =>
      if count ≠ (visits.length : Int) then
        (s, ⟨400, ResponseBody.text "Count does not match the number of visits"⟩)
      else
        let id := wrapInt (s.jobIDSeq + 1)
        let job := newJob id visits
        ({ heap := s.heap ++ [spawn job],
           jobs := mapSet s.jobs id s.heap.length,
           jobIDSeq := id },
         ⟨201, ResponseBody.jobResponse ⟨job.JobID⟩⟩)

/-- Submissions handled one after another: final state and the answers in order. -/
def submitAll : Server → List SubmitRequest → Server × List Response
  | s, [] => (s, [])
  | s, r :: rs =>
    let (s1, a) := submitJobHandler s r
    let (s2, as) := submitAll s1 rs
    (s2, a :: as)

/-- The identifier carried by an answer, when it is the answer to an accepted submission. -/
def issuedID (a : Response) : Option Int :=
  match a.body with
  | ResponseBody.jobResponse j => if a.code = 201 then some j.JobID else none
  | _ => none

/-- The identifiers issued by a list of answers, in order. -/
def issuedIDs (as : List Response) : List Int := as.filterMap issuedID

/-- The identifiers `from + 1, ..., from + n`. -/
def idsFrom (start : Nat) : Nat → List Int
  | 0 => []
  | n + 1 => ((start : Int) + 1) :: idsFrom (start + 1) n

/-! ## `processJob` -/

/-- The perimeter `2 * (img.Bounds().Dx() + img.Bounds().Dy())` in Go `int` arithmetic. -/
def perimeter (img : Image) : Int := wrapInt (2 * wrapInt (img.Dx + img.Dy))

/-- The write `job.Status = "failed"` (lines 156 and 166). -/
def setFailed (r : Run) : Run := { r with job := { r.job with Status := "failed" } }

/-- The write `job.Errors = append(job.Errors, e)` (lines 157 and 167). -/
def appendError (r : Run) (e : JobError) : Run :=
  { r with job := { r.job with Errors := r.job.Errors ++ [e] } }

/-- The critical section of `processJob` that records an error:
`job.Status = "failed"; job.Errors = append(job.Errors, e)`. -/
def recordError (r : Run) (e : JobError) : Run :=
  { r with job := { r.job with Status := "failed", Errors := r.job.Errors ++ [e] } }

/-- One turn of the loop over the URLs of a visit: the call of `downloadImage`, then the
recorded error or the printed line. -/
def processImage (downloadImage : Fetcher) (storeID : String) (r : Run) (url : String) : Run :=
  let r1 := { r with fetched := r.fetched ++ [(storeID, url)] }
  match downloadImage url with
  | Except.error err => recordError r1 ⟨storeID, "Failed to download image: " ++ err⟩
  | Except.ok img => { r1 with printed := r1.printed ++ [⟨storeID, url, perimeter img⟩] }

/-- One turn of the loop over the visits. -/
def processVisit (sm : StoreMaster) (downloadImage : Fetcher) (r : Run) (visit : Visit) : Run :=
  match sm visit.StoreID with
  | none => recordError r ⟨visit.StoreID, "Invalid store_id"⟩
  | some _ => visit.ImageURLs.foldl (processImage downloadImage visit.StoreID) r

/-- The critical section that closes `processJob`:
`if job.Status != "failed" then job.Status = "completed"`. -/
def finish (r : Run) : Run :=
  { r with job := { r.job with
      Status := if r.job.Status ≠ "failed" then "completed" else r.job.Status } }

/-- The function `processJob`, run from its first line to its return. -/
def processJob (sm : StoreMaster) (downloadImage : Fetcher) (job : Job) : Run :=
  finish (job.Visits.foldl (processVisit sm downloadImage) ⟨job, [], []⟩)

/-- The run `r` after further errors, calls and lines were added to it; the status is
"failed" as soon as one error was added. -/
def Run.extend (r : Run) (es : List JobError) (fs : List (String × String))
    (ps : List Printed) : Run :=
  { job := { r.job with
      Status := if es = [] then r.job.Status else "failed",
      Errors := r.job.Errors ++ es },
    fetched := r.fetched ++ fs,
    printed := r.printed ++ ps }

/-- One step of a `processJob` goroutine; each critical section is one step. From a
control point inside a critical section the step is the rest of that section. -/
def procStep (sm : StoreMaster) (downloadImage : Fetcher) (c : Cell) : Cell :=
  match c.pc with
  | ProcPC.outer [] => ⟨finish c.run, ProcPC.done⟩
  | ProcPC.outer (visit :: visits) =>
    match sm visit.StoreID with
    | none => ⟨recordError c.run ⟨visit.StoreID, "Invalid store_id"⟩, ProcPC.outer visits⟩
    | some _ => ⟨c.run, ProcPC.inner visit.StoreID visit.ImageURLs visits⟩
  | ProcPC.inner _ [] visits => ⟨c.run, ProcPC.outer visits⟩
  | ProcPC.inner storeID (url :: urls) visits =>
    ⟨processImage downloadImage storeID c.run url, ProcPC.inner storeID urls visits⟩
  | ProcPC.outerAppend e visits => ⟨appendError c.run e, ProcPC.outer visits⟩
  | ProcPC.innerAppend e storeID urls visits =>
    ⟨appendError c.run e, ProcPC.inner storeID urls visits⟩
  | ProcPC.done => c

/-- One step of a `processJob` goroutine as a reader that takes no lock sees it: each
write to the job is a step of its own, so the state between the two writes of a critical
section is a state of the run. -/
def procWrite (sm : StoreMaster) (downloadImage : Fetcher) (c : Cell) : Cell :=
  match c.pc with
  | ProcPC.outer [] => ⟨finish c.run, ProcPC.done⟩
  | ProcPC.outer (visit :: visits) =>
    match sm visit.StoreID with
    | none =>
      ⟨setFailed c.run, ProcPC.outerAppend ⟨visit.StoreID, "Invalid store_id"⟩ visits⟩
    | some _ => ⟨c.run, ProcPC.inner visit.StoreID visit.ImageURLs visits⟩
  | ProcPC.inner _ [] visits => ⟨c.run, ProcPC.outer visits⟩
  | ProcPC.inner storeID (url :: urls) visits =>
    let r1 : Run := { c.run with fetched := c.run.fetched ++ [(storeID, url)] }
    match downloadImage url with
    | Except.error err =>
      ⟨setFailed r1,
        ProcPC.innerAppend ⟨storeID, "Failed to download image: " ++ err⟩ storeID urls visits⟩
    | Except.ok img =>
      ⟨{ r1 with printed := r1.printed ++ [⟨storeID, url, perimeter img⟩] },
        ProcPC.inner storeID urls visits⟩
  | ProcPC.outerAppend e visits => ⟨appendError c.run e, ProcPC.outer visits⟩
  | ProcPC.innerAppend e storeID urls visits =>
    ⟨appendError c.run e, ProcPC.inner storeID urls visits⟩
  | ProcPC.done => c

/-- A control point inside a critical section, with an append still to come. -/
def ProcPC.pending : ProcPC → Bool
  | ProcPC.outerAppend _ _ => true
  | ProcPC.innerAppend _ _ _ _ => true
  | _ => false

/-- The goroutine brought to the end of the critical section it is in, if it is in one. -/
def settle (sm : StoreMaster) (downloadImage : Fetcher) (c : Cell) : Cell :=
  if c.pc.pending then procWrite sm downloadImage c else c

/-- While the goroutine has not returned, the status is "ongoing" or "failed". -/
def Cell.active (c : Cell) : Prop :=
  c.run.job.Status = "ongoing" ∨ c.run.job.Status = "failed" ∨ c.pc = ProcPC.done

/-- The state of the goroutine started on `job` after `n` steps. -/
def procRun (sm : StoreMaster) (downloadImage : Fetcher) (job : Job) (n : Nat) : Cell :=
  (procStep sm downloadImage)^[n] (spawn job)

/-- The job after `n` steps of the goroutine started on it. -/
def jobAt (sm : StoreMaster) (downloadImage : Fetcher) (job : Job) (n : Nat) : Job :=
  (procRun sm downloadImage job n).run.job

/-- Number of steps `processJob` takes over the given visits, the closing one included. -/
def procCost (sm : StoreMaster) : List Visit → Nat
  | [] => 1
  | visit :: visits =>
    (match sm visit.StoreID with
      | none => 1
      | some _ => visit.ImageURLs.length + 2) + procCost sm visits

/-- Specification side: the errors one visit is to contribute, the single error
"Invalid store_id" when its store is unknown, otherwise the download errors of its failing
URLs in the order of its URL list. -/
def expectedErrors (sm : StoreMaster) (downloadImage : Fetcher) (visit : Visit) : List JobError :=
  match sm visit.StoreID with
  | none => [⟨visit.StoreID, "Invalid store_id"⟩]
  | some _ => visit.ImageURLs.filterMap fun url =>
      match downloadImage url with
      | Except.error err => some ⟨visit.StoreID, "Failed to download image: " ++ err⟩
      | Except.ok _ => none

/-- Specification side: the perimeter metric of an image of the given pixel dimensions,
twice the sum of width and height, in the integers. -/
def expectedPerimeter (width height : Int) : Int := 2 * (width + height)

/-- Specification side: the results one visit is to contribute, none when its store is
unknown, otherwise one for each successfully fetched URL in the order of its URL list,
each with the store identifier, the URL and the perimeter metric of the image. -/
def expectedPrinted (sm : StoreMaster) (downloadImage : Fetcher) (visit : Visit) : List Printed :=
  match sm visit.StoreID with
  | none => []
  | some _ => visit.ImageURLs.filterMap fun url =>
      match downloadImage url with
      | Except.error _ => none
      | Except.ok img => some ⟨visit.StoreID, url, expectedPerimeter img.Dx img.Dy⟩

/-- The results one visit contributes as the code computes them, with `perimeter`. -/
def visitPrinted (sm : StoreMaster) (downloadImage : Fetcher) (visit : Visit) : List Printed :=
  match sm visit.StoreID with
  | none => []
  | some _ => visit.ImageURLs.filterMap fun url =>
      match downloadImage url with
      | Except.error _ => none
      | Except.ok img => some ⟨visit.StoreID, url, perimeter img⟩

/-- Specification side: the calls of the fetcher one visit is to cause, none when its
store is unknown, otherwise one per entry of its URL list, in order. -/
def expectedFetched (sm : StoreMaster) (visit : Visit) : List (String × String) :=
  match sm visit.StoreID with
  | none => []
  | some _ => visit.ImageURLs.map fun url => (visit.StoreID, url)

/-! ## `atoi` and `getJobStatusHandler` -/

/-- The predicate `isSpace` of package `fmt`. -/
def isSpace (c : Char) : Bool :=
  let n := c.toNat
  (0x0009 ≤ n && n ≤ 0x000d) || n == 0x0020 || n == 0x0085 || n == 0x00a0 || n == 0x1680 ||
  (0x2000 ≤ n && n ≤ 0x200a) || n == 0x2028 || n == 0x2029 || n == 0x202f || n == 0x205f ||
  n == 0x3000

/-- Membership in the digit string `"0123456789"` that `%d` accepts. -/
def isDecimalDigit (c : Char) : Bool := decide ('0' ≤ c) && decide (c ≤ '9')

/-- The method `SkipSpace` of package `fmt` as `Sscanf` runs it (newlines are not space):
the rest of the input, or `none` for the error `unexpected newline`. -/
def skipSpace : List Char → Option (List Char)
  | [] => some []
  | c :: cs =>
    if c = '\n' then none
    else if isSpace c then skipSpace cs
    else some (c :: cs)

/-- The call `s.accept("+-")` of `scanInt`: whether a minus sign was read, and the rest. -/
def acceptSign : List Char → Bool × List Char
  | [] => (false, [])
  | c :: cs => if c = '-' then (true, cs) else if c = '+' then (false, cs) else (false, c :: cs)

/-- The value of a run of decimal digits. -/
def digitsValue (ds : List Char) : Nat :=
  ds.foldl (fun acc c => 10 * acc + (c.toNat - 48)) 0

/-- The scan `fmt.Sscanf(s, "%d", &result)` for `result` of type `int`: leading space is
skipped, one sign is accepted, the longest run of decimal digits is read (at least one),
and the token is converted by `strconv.ParseInt(tok, 10, 64)`. The value stored in
`result`, or `none` when the scan fails and stores nothing. Input after the digits is
left unread and is no error. -/
def scanInt (s : List Char) : Option Int :=
  match skipSpace s with
  | none => none
  | some rest =>
    let signed := acceptSign rest
    let ds := signed.2.takeWhile isDecimalDigit
    if ds = [] then none
    else
      let v : Int := if signed.1 then -(digitsValue ds : Int) else (digitsValue ds : Int)
      if -(2 ^ 63) ≤ v ∧ v < 2 ^ 63 then some v else none

/-- The function `atoi`: `result` starts at zero and the error of `Sscanf` is dropped. -/
def atoi (s : String) : Int := (scanInt s.data).getD 0

/-- A request to `/api/status`: the method and `r.URL.Query().Get("jobid")`, which is
the empty string when the parameter is missing. -/
structure StatusRequest where
  Method : String
  jobid : String
deriving DecidableEq, Repr

/-- The job behind a pointer. -/
def deref (s : Server) (a : Nat) : Option Job := (s.heap[a]?).map fun c => c.run.job

/-- The answer when a handler dereferences an address that holds no job (a panic in Go;
`submitJobHandler` stores no such address). -/
def panicResponse : Response := ⟨500, ResponseBody.text "invalid memory address"⟩

/-- The handler `getJobStatusHandler` run without interruption on the state `s`. -/
def getJobStatusHandler (s : Server) (r : StatusRequest) : Response :=
  if r.Method ≠ "GET" then ⟨405, ResponseBody.text "Invalid request method"⟩
  else if r.jobid = "" then ⟨400, ResponseBody.text "Missing jobid parameter"⟩
  else
    match mapGet s.jobs (atoi r.jobid) with
    | none => ⟨400, ResponseBody.text "Job not found"⟩
    | some a =>
      match deref s a with
      | none => panicResponse
      | some job =>
        let response : JobStatusResponse := ⟨job.Status, r.jobid, []⟩
        let response :=
          if job.Status = "failed" then { response with Errors := job.Errors } else response
        ⟨200, ResponseBody.statusResponse response⟩

/-- Control point of a `getJobStatusHandler` call: before the lookup, before each of its
three reads of the job (`job.Status` for the response literal, `job.Status` in the test,
`job.Errors`), before encoding, and after the answer. -/
inductive StatusPC where
  | start
  | readStatus (a : Nat)
  | testStatus (a : Nat) (response : JobStatusResponse)
  | readErrors (a : Nat) (response : JobStatusResponse)
  | encode (response : JobStatusResponse)
  | replied (r : Response)
deriving DecidableEq, Repr

/-- One step of a `getJobStatusHandler` call on the current state. The handler takes
`jobsMutex` for the lookup and no lock for the reads of the job. -/
def statusStep (s : Server) (r : StatusRequest) : StatusPC → StatusPC
  | StatusPC.start =>
    if r.Method ≠ "GET" then StatusPC.replied ⟨405, ResponseBody.text "Invalid request method"⟩
    else if r.jobid = "" then
      StatusPC.replied ⟨400, ResponseBody.text "Missing jobid parameter"⟩
    else
      match mapGet s.jobs (atoi r.jobid) with
      | none => StatusPC.replied ⟨400, ResponseBody.text "Job not found"⟩
      | some a => StatusPC.readStatus a
  | StatusPC.readStatus a =>
    match deref s a with
    | none => StatusPC.replied panicResponse
    | some job => StatusPC.testStatus a ⟨job.Status, r.jobid, []⟩
  | StatusPC.testStatus a response =>
    match deref s a with
    | none => StatusPC.replied panicResponse
    | some job =>
      if job.Status = "failed" then StatusPC.readErrors a response
      else StatusPC.encode response
  | StatusPC.readErrors a response =>
    match deref s a with
    | none => StatusPC.replied panicResponse
    | some job => StatusPC.encode { response with Errors := job.Errors }
  | StatusPC.encode response => StatusPC.replied ⟨200, ResponseBody.statusResponse response⟩
  | StatusPC.replied x => StatusPC.replied x

/-! ## Runs of the server -/

/-- Replace the element at position `a`. -/
def updateAt (f : Cell → Cell) : Nat → List Cell → List Cell
  | _, [] => []
  | 0, c :: cs => f c :: cs
  | a + 1, c :: cs => c :: updateAt f a cs

/-- One step of the goroutine that processes the job at address `a`. -/
def processStep (sm : StoreMaster) (downloadImage : Fetcher) (s : Server) (a : Nat) : Server :=
  { s with heap := updateAt (procStep sm downloadImage) a s.heap }

/-- One write of the goroutine that processes the job at address `a`. -/
def writeStep (sm : StoreMaster) (downloadImage : Fetcher) (s : Server) (a : Nat) : Server :=
  { s with heap := updateAt (procWrite sm downloadImage) a s.heap }

/-- What can happen to the server: a submission is handled, or the processor of the job
at an address makes its next write (`procWrite`), the outside world behaving as the given
fetcher. The states between the two writes of a critical section are among the states
reached, since `getJobStatusHandler` reads the job without its lock. -/
inductive Event where
  | submit (r : SubmitRequest)
  | process (a : Nat) (downloadImage : Fetcher)

/-- The state after an event. -/
def applyEvent (sm : StoreMaster) (s : Server) : Event → Server
  | Event.submit r => (submitJobHandler s r).1
  | Event.process a downloadImage => writeStep sm downloadImage s a

/-- The state reached from the initial one by a sequence of events. -/
def reach (sm : StoreMaster) (evs : List Event) : Server := evs.foldl (applyEvent sm) initServer

/-- A scheduling decision while a status request is being served: the handler takes its
next step, or the processor of the job at an address takes one. -/
inductive Action where
  | status
  | process (a : Nat)
deriving DecidableEq, Repr

/-- The server and the status handler after a schedule. A step of the processor is a
whole critical section (it holds `job.mu`); the reads of the handler, made without that
lock, fall between such steps. -/
def interleave (sm : StoreMaster) (downloadImage : Fetcher) (r : StatusRequest) :
    List Action → Server × StatusPC → Server × StatusPC
  | [], x => x
  | Action.status :: as, x => interleave sm downloadImage r as (x.1, statusStep x.1 r x.2)
  | Action.process a :: as, x =>
    interleave sm downloadImage r as (processStep sm downloadImage x.1 a, x.2)

/-! ## Invariant of the reachable states -/

/-- What holds of a job at every moment of its run: the status is one of the three, and
a non-empty error list goes with the status "failed". -/
def jobSound (job : Job) : Prop :=
  (job.Status = "ongoing" ∨ job.Status = "completed" ∨ job.Status = "failed") ∧
  (job.Errors ≠ [] → job.Status = "failed")

/-- A sound job whose status is already "failed" when an append is still to come. -/
def cellSound (c : Cell) : Prop :=
  jobSound c.run.job ∧ (c.pc.pending = true → c.run.job.Status = "failed")

/-- Invariant of the reachable states. Below 2^63 jobs: the counter is the number of jobs,
the map `jobs` binds exactly the identifiers 1 up to that number, the identifier `id` to
the address `id - 1`, and the job at address `a` carries the identifier `a + 1`. Every
job is sound. -/
structure Server.wf (s : Server) : Prop where
  counter : (s.heap.length : Int) < 2 ^ 63 → s.jobIDSeq = (s.heap.length : Int)
  keys : (s.heap.length : Int) < 2 ^ 63 → ∀ id : Int,
    mapGet s.jobs id =
      if 1 ≤ id ∧ id ≤ (s.heap.length : Int) then some (id - 1).toNat else none
  ids : (s.heap.length : Int) < 2 ^ 63 → ∀ (a : Nat) (c : Cell), s.heap[a]? = some c →
    c.run.job.JobID = (a : Int) + 1
  cells : ∀ (a : Nat) (c : Cell), s.heap[a]? = some c → cellSound c

/-! ## Concrete collaborators used in the worked examples -/

/-- A store table that knows the single store `"S2"`. -/
def exampleStores : StoreMaster := fun id => if id = "S2" then some ⟨"name", "area"⟩ else none

/-- A fetcher that decodes a 100 by 50 image at the URL `"ok"` and elsewhere fails with
the error `downloadImage` makes of the response status 404. -/
def exampleFetcher : Fetcher := fun url =>
  if url = "ok" then Except.ok ⟨100, 50⟩
  else Except.error "failed to download image: 404 Not Found"

/-! ## Theorems -/

/-! ### Properties of `submitJobHandler` -/

theorem wrapInt_eq_self {x : Int} (h1 : -(2 ^ 63) ≤ x) (h2 : x < 2 ^ 63) : wrapInt x = x := by
  unfold wrapInt
  rw [Int.emod_eq_of_lt (by omega) (by omega)]
  omega

theorem idsFrom_length (start n : Nat) : (idsFrom start n).length = n := by
  induction n generalizing start with
  | zero => rfl
  | succ n ih => simp [idsFrom, ih]

theorem idsFrom_lower (start n : Nat) : ∀ x ∈ idsFrom start n, (start : Int) < x := by
  induction n generalizing start with
  | zero => simp [idsFrom]
  | succ n ih =>
    intro x hx
    simp only [idsFrom, List.mem_cons] at hx
    rcases hx with rfl | hx
    · omega
    · have := ih (start + 1) x hx
      push_cast at this
      omega

theorem idsFrom_pairwise (start n : Nat) : (idsFrom start n).Pairwise (· < ·) := by
  induction n generalizing start with
  | zero => simp [idsFrom]
  | succ n ih =>
    simp only [idsFrom, List.pairwise_cons]
    refine ⟨fun x hx => ?_, ih (start + 1)⟩
    have := idsFrom_lower (start + 1) n x hx
    push_cast at this
    exact this

theorem idsFrom_getElem? (start n k : Nat) (hk : k < n) :
    (idsFrom start n)[k]? = some ((start : Int) + k + 1) := by
  induction n generalizing start k with
  | zero => omega
  | succ n ih =>
    cases k with
    | zero => simp [idsFrom]
    | succ k =>
      simp only [idsFrom, List.getElem?_cons_succ]
      rw [ih (start + 1) k (by omega)]
      push_cast
      congr 1
      omega

/-- Every answer of `submitJobHandler` either leaves the state alone and issues nothing,
or issues `wrapInt (jobIDSeq + 1)` and stores it in the counter. -/
theorem submitJobHandler_cases (s : Server) (r : SubmitRequest) :
    ((submitJobHandler s r).1 = s ∧ issuedID (submitJobHandler s r).2 = none) ∨
    ((submitJobHandler s r).1.jobIDSeq = wrapInt (s.jobIDSeq + 1) ∧
      issuedID (submitJobHandler s r).2 = some (wrapInt (s.jobIDSeq + 1))) := by
  unfold submitJobHandler
  by_cases hm : r.Method ≠ "POST"
  · left; simp [hm, issuedID]
  · rcases hb : r.Body with _ | ⟨count, visits⟩
    · left; simp [hm, issuedID]
    · by_cases hc : count ≠ (visits.length : Int)
      · left; simp [hm, hc, issuedID]
      · right; simp [hm, hc, issuedID, newJob]

theorem submitAll_issued (n : Nat) :
    ∀ (reqs : List SubmitRequest) (s : Server), 0 ≤ s.jobIDSeq →
      s.jobIDSeq + reqs.length < 2 ^ 63 → s.jobIDSeq = (n : Int) →
      ∃ m : Nat, issuedIDs (submitAll s reqs).2 = idsFrom n m ∧
        (submitAll s reqs).1.jobIDSeq = (n : Int) + m ∧ m ≤ reqs.length := by
  intro reqs
  induction reqs generalizing n with
  | nil =>
    intro s _ _ hn
    exact ⟨0, by simp [submitAll, issuedIDs, idsFrom], by simp [submitAll, hn], by simp⟩
  | cons r rs ih =>
    intro s h0 hlt hn
    simp only [List.length_cons] at hlt
    push_cast at hlt
    rcases submitJobHandler_cases s r with ⟨hs, hi⟩ | ⟨hs, hi⟩
    · obtain ⟨m, h1, h2, h3⟩ := ih n s h0 (by omega) hn
      refine ⟨m, ?_, ?_, by simp; omega⟩
      · simp only [submitAll, issuedIDs, List.filterMap_cons, hi, hs]
        exact h1
      · simp only [submitAll, hs]
        exact h2
    · have hw : wrapInt (s.jobIDSeq + 1) = s.jobIDSeq + 1 :=
        wrapInt_eq_self (by omega) (by omega)
      rw [hw] at hs hi
      obtain ⟨m, h1, h2, h3⟩ := ih (n + 1) (submitJobHandler s r).1 (by omega) (by omega)
        (by rw [hs, hn]; push_cast; ring)
      refine ⟨m + 1, ?_, ?_, by simp; omega⟩
      · simp only [submitAll, issuedIDs, List.filterMap_cons, hi, idsFrom]
        rw [hn]
        exact congrArg _ h1
      · simp only [submitAll]
        rw [h2]
        push_cast
        ring


/-! ### Properties of `processJob` -/

theorem Run.extend_nil (r : Run) : r.extend [] [] [] = r := by
  simp [Run.extend]

theorem Run.extend_extend (r : Run) (es es2 : List JobError) (fs fs2 : List (String × String))
    (ps ps2 : List Printed) :
    (r.extend es fs ps).extend es2 fs2 ps2 = r.extend (es ++ es2) (fs ++ fs2) (ps ++ ps2) := by
  cases es <;> cases es2 <;> simp [Run.extend]

theorem recordError_eq (r : Run) (e : JobError) : recordError r e = r.extend [e] [] [] := by
  simp [recordError, Run.extend]

/-- The loop over the URLs of a visit with a known store. -/
theorem foldl_processImage (dl : Fetcher) (sid : String) (urls : List String) :
    ∀ r : Run, urls.foldl (processImage dl sid) r =
      r.extend
        (urls.filterMap fun url =>
          match dl url with
          | Except.error err => some ⟨sid, "Failed to download image: " ++ err⟩
          | Except.ok _ => none)
        (urls.map fun url => (sid, url))
        (urls.filterMap fun url =>
          match dl url with
          | Except.error _ => none
          | Except.ok img => some ⟨sid, url, perimeter img⟩) := by
  induction urls with
  | nil => intro r; simp [Run.extend_nil]
  | cons u us ih =>
    intro r
    rw [List.foldl_cons, ih]
    cases h : dl u with
    | error err =>
      simp only [processImage, h, List.filterMap_cons, List.map_cons]
      rw [recordError_eq, Run.extend_extend]
      simp [Run.extend]
    | ok img =>
      simp only [processImage, h, List.filterMap_cons, List.map_cons]
      simp [Run.extend]

theorem processVisit_eq (sm : StoreMaster) (dl : Fetcher) (r : Run) (v : Visit) :
    processVisit sm dl r v =
      r.extend (expectedErrors sm dl v) (expectedFetched sm v) (visitPrinted sm dl v) := by
  unfold processVisit expectedErrors expectedFetched visitPrinted
  cases h : sm v.StoreID with
  | none => simp [recordError_eq]
  | some info => simp [foldl_processImage]

/-- The loop over the visits. -/
theorem foldl_processVisit (sm : StoreMaster) (dl : Fetcher) (visits : List Visit) :
    ∀ r : Run, visits.foldl (processVisit sm dl) r =
      r.extend (visits.flatMap (expectedErrors sm dl)) (visits.flatMap (expectedFetched sm))
        (visits.flatMap (visitPrinted sm dl)) := by
  induction visits with
  | nil => intro r; simp [Run.extend_nil]
  | cons v vs ih =>
    intro r
    rw [List.foldl_cons, ih, processVisit_eq, Run.extend_extend]
    simp [List.flatMap_cons]

/-- The result of `processJob` on a new job in closed form. -/
theorem processJob_newJob (sm : StoreMaster) (dl : Fetcher) (id : Int) (visits : List Visit) :
    processJob sm dl (newJob id visits) =
      { job := { JobID := id, Visits := visits,
                 Status := if visits.flatMap (expectedErrors sm dl) = [] then "completed"
                           else "failed",
                 Errors := visits.flatMap (expectedErrors sm dl) },
        fetched := visits.flatMap (expectedFetched sm),
        printed := visits.flatMap (visitPrinted sm dl) } := by
  unfold processJob
  rw [foldl_processVisit]
  by_cases h : visits.flatMap (expectedErrors sm dl) = []
  · simp [finish, Run.extend, newJob, h]
  · simp [finish, Run.extend, newJob, h]

theorem expectedErrors_storeID (sm : StoreMaster) (dl : Fetcher) (v : Visit) :
    ∀ e ∈ expectedErrors sm dl v, e.StoreID = v.StoreID := by
  intro e he
  unfold expectedErrors at he
  cases h : sm v.StoreID with
  | none =>
    simp only [h, List.mem_singleton] at he
    rw [he]
  | some info =>
    simp only [h, List.mem_filterMap] at he
    obtain ⟨u, _, hu⟩ := he
    cases hd : dl u with
    | error err =>
      simp only [hd, Option.some.injEq] at hu
      rw [← hu]
    | ok img => simp [hd] at hu

theorem count_invalid_store (sm : StoreMaster) (dl : Fetcher) (sid : String)
    (hsid : sm sid = none) (visits : List Visit) :
    (visits.flatMap (expectedErrors sm dl)).count ⟨sid, "Invalid store_id"⟩ =
      visits.countP (fun w => w.StoreID = sid) := by
  induction visits with
  | nil => simp
  | cons w ws ih =>
    rw [List.flatMap_cons, List.count_append, ih, List.countP_cons]
    have hw : (expectedErrors sm dl w).count ⟨sid, "Invalid store_id"⟩ =
        if w.StoreID = sid then 1 else 0 := by
      by_cases heq : w.StoreID = sid
      · have : sm w.StoreID = none := by rw [heq]; exact hsid
        simp [expectedErrors, this, heq, hsid]
      · rw [if_neg heq]
        apply List.count_eq_zero_of_not_mem
        intro hmem
        have := expectedErrors_storeID sm dl w _ hmem
        exact heq this.symm
    rw [hw]
    by_cases heq : w.StoreID = sid <;> simp [heq]; omega

theorem expectedFetched_known (sm : StoreMaster) (visits : List Visit) :
    ∀ x ∈ visits.flatMap (expectedFetched sm), sm x.1 ≠ none := by
  intro x hx
  rw [List.mem_flatMap] at hx
  obtain ⟨w, _, hw⟩ := hx
  unfold expectedFetched at hw
  cases h : sm w.StoreID with
  | none => simp [h] at hw
  | some info =>
    simp only [h, List.mem_map] at hw
    obtain ⟨u, _, rfl⟩ := hw
    simp [h]

theorem procStep_errors (sm : StoreMaster) (dl : Fetcher) (c : Cell) :
    c.run.job.Errors <+: (procStep sm dl c).run.job.Errors := by
  unfold procStep
  split
  · simp [finish]
  · split <;> simp [recordError]
  · simp
  · simp only [processImage]
    split <;> simp [recordError]
  · simp [appendError]
  · simp [appendError]
  · simp

theorem procStep_failed (sm : StoreMaster) (dl : Fetcher) (c : Cell)
    (h : c.run.job.Status = "failed") : (procStep sm dl c).run.job.Status = "failed" := by
  unfold procStep
  split
  · simp [finish, h]
  · split <;> simp [recordError, h]
  · exact h
  · simp only [processImage]
    split <;> simp [recordError, h]
  · simp [appendError, h]
  · simp [appendError, h]
  · exact h

theorem active_of_pc_ne_done {c : Cell} {r : Run} {pc : ProcPC} (h : c.active)
    (hpc : c.pc ≠ ProcPC.done) (hr : r.job.Status = c.run.job.Status) :
    (⟨r, pc⟩ : Cell).active := by
  unfold Cell.active at *
  rcases h with h | h | h
  · exact Or.inl (hr.trans h)
  · exact Or.inr (Or.inl (hr.trans h))
  · exact absurd h hpc

theorem procStep_active (sm : StoreMaster) (dl : Fetcher) (c : Cell) (h : c.active) :
    (procStep sm dl c).active := by
  unfold procStep
  split
  · right; right; rfl
  · split
    · right; left; simp [recordError]
    · rename_i hpc _ _ _
      exact active_of_pc_ne_done h (by rw [hpc]; simp) rfl
  · rename_i hpc
    exact active_of_pc_ne_done h (by rw [hpc]; simp) rfl
  · rename_i hpc
    simp only [processImage]
    split
    · right; left; simp [recordError]
    · exact active_of_pc_ne_done h (by rw [hpc]; simp) rfl
  · rename_i hpc
    exact active_of_pc_ne_done h (by rw [hpc]; simp) rfl
  · rename_i hpc
    exact active_of_pc_ne_done h (by rw [hpc]; simp) rfl
  · exact h

theorem procStep_completed (sm : StoreMaster) (dl : Fetcher) (c : Cell) (h : c.active)
    (hc : (procStep sm dl c).run.job.Status = "completed") :
    c.run.job.Status = "ongoing" ∨ c.run.job.Status = "completed" := by
  unfold Cell.active at h
  unfold procStep at hc
  split at hc
  · rename_i hpc
    rcases h with h | h | h
    · exact Or.inl h
    · simp [finish, h] at hc
    · rw [hpc] at h; cases h
  · split at hc
    · simp [recordError] at hc
    · exact Or.inr hc
  · exact Or.inr hc
  · simp only [processImage] at hc
    split at hc
    · simp [recordError] at hc
    · exact Or.inr hc
  · exact Or.inr hc
  · exact Or.inr hc
  · exact Or.inr hc

theorem procRun_succ (sm : StoreMaster) (dl : Fetcher) (job : Job) (n : Nat) :
    procRun sm dl job (n + 1) = procStep sm dl (procRun sm dl job n) := by
  unfold procRun
  rw [Function.iterate_succ_apply']

theorem procRun_active (sm : StoreMaster) (dl : Fetcher) (id : Int) (visits : List Visit)
    (n : Nat) : (procRun sm dl (newJob id visits) n).active := by
  induction n with
  | zero => left; rfl
  | succ n ih => rw [procRun_succ]; exact procStep_active sm dl _ ih

theorem procRun_errors_mono (sm : StoreMaster) (dl : Fetcher) (job : Job) (i k : Nat) :
    (jobAt sm dl job i).Errors <+: (jobAt sm dl job (i + k)).Errors := by
  induction k with
  | zero => exact List.prefix_refl _
  | succ k ih =>
    unfold jobAt at *
    rw [← Nat.add_assoc, procRun_succ]
    exact ih.trans (procStep_errors sm dl _)

theorem procRun_failed_mono (sm : StoreMaster) (dl : Fetcher) (job : Job) (i k : Nat)
    (h : (jobAt sm dl job i).Status = "failed") :
    (jobAt sm dl job (i + k)).Status = "failed" := by
  induction k with
  | zero => exact h
  | succ k ih =>
    unfold jobAt at *
    rw [← Nat.add_assoc, procRun_succ]
    exact procStep_failed sm dl _ ih

theorem iterate_inner (sm : StoreMaster) (dl : Fetcher) (sid : String) (vs : List Visit)
    (urls : List String) :
    ∀ r : Run, (procStep sm dl)^[urls.length + 1] ⟨r, ProcPC.inner sid urls vs⟩ =
      ⟨urls.foldl (processImage dl sid) r, ProcPC.outer vs⟩ := by
  induction urls with
  | nil => intro r; simp [procStep]
  | cons u us ih =>
    intro r
    rw [List.length_cons, Function.iterate_succ_apply]
    have : procStep sm dl ⟨r, ProcPC.inner sid (u :: us) vs⟩ =
        ⟨processImage dl sid r u, ProcPC.inner sid us vs⟩ := by simp [procStep]
    rw [this, ih, List.foldl_cons]

theorem iterate_outer (sm : StoreMaster) (dl : Fetcher) (vs : List Visit) :
    ∀ r : Run, (procStep sm dl)^[procCost sm vs] ⟨r, ProcPC.outer vs⟩ =
      ⟨finish (vs.foldl (processVisit sm dl) r), ProcPC.done⟩ := by
  induction vs with
  | nil => intro r; simp [procCost, procStep]
  | cons v vs ih =>
    intro r
    cases h : sm v.StoreID with
    | none =>
      have hc : procCost sm (v :: vs) = procCost sm vs + 1 := by
        simp only [procCost, h]; omega
      rw [hc, Function.iterate_succ_apply]
      have : procStep sm dl ⟨r, ProcPC.outer (v :: vs)⟩ =
          ⟨recordError r ⟨v.StoreID, "Invalid store_id"⟩, ProcPC.outer vs⟩ := by
        simp [procStep, h]
      rw [this, ih, List.foldl_cons]
      simp [processVisit, h]
    | some info =>
      have hc : procCost sm (v :: vs) = procCost sm vs + (v.ImageURLs.length + 1) + 1 := by
        simp only [procCost, h]; ring
      rw [hc, Function.iterate_succ_apply]
      have : procStep sm dl ⟨r, ProcPC.outer (v :: vs)⟩ =
          ⟨r, ProcPC.inner v.StoreID v.ImageURLs vs⟩ := by
        simp [procStep, h]
      rw [this, Function.iterate_add_apply, iterate_inner, ih, List.foldl_cons]
      simp [processVisit, h]

/-- The goroutine started on a job returns after `procCost` steps, and the job is then
the one `processJob` computes. -/
theorem procRun_complete (sm : StoreMaster) (dl : Fetcher) (job : Job) :
    procRun sm dl job (procCost sm job.Visits) = ⟨processJob sm dl job, ProcPC.done⟩ := by
  unfold procRun spawn processJob
  exact iterate_outer sm dl job.Visits _

/-! ### Properties of `atoi` -/

theorem digitChar_props (k : Nat) (h : k < 10) :
    isDecimalDigit (Nat.digitChar k) = true ∧ (Nat.digitChar k).toNat - 48 = k ∧
      isSpace (Nat.digitChar k) = false ∧ Nat.digitChar k ≠ '\n' ∧ Nat.digitChar k ≠ '-' ∧
      Nat.digitChar k ≠ '+' := by
  interval_cases k <;> decide

theorem toDigitsCore_mem (fuel : Nat) : ∀ (n : Nat) (ds : List Char),
    ∀ c ∈ Nat.toDigitsCore 10 fuel n ds, (∃ k, k < 10 ∧ c = Nat.digitChar k) ∨ c ∈ ds := by
  induction fuel with
  | zero => intro n ds c hc; right; simpa [Nat.toDigitsCore] using hc
  | succ fuel ih =>
    intro n ds c hc
    simp only [Nat.toDigitsCore] at hc
    split at hc
    · rcases List.mem_cons.mp hc with rfl | h
      · exact Or.inl ⟨n % 10, Nat.mod_lt _ (by norm_num), rfl⟩
      · exact Or.inr h
    · rcases ih _ _ c hc with h | h
      · exact Or.inl h
      · rcases List.mem_cons.mp h with rfl | h
        · exact Or.inl ⟨n % 10, Nat.mod_lt _ (by norm_num), rfl⟩
        · exact Or.inr h

theorem toDigitsCore_value (fuel : Nat) : ∀ (n : Nat) (ds : List Char), n < fuel →
    List.foldl (fun acc c => 10 * acc + (c.toNat - 48)) 0 (Nat.toDigitsCore 10 fuel n ds) =
      List.foldl (fun acc c => 10 * acc + (c.toNat - 48)) n ds := by
  induction fuel with
  | zero => intro n ds h; omega
  | succ fuel ih =>
    intro n ds h
    simp only [Nat.toDigitsCore]
    have hd := (digitChar_props (n % 10) (Nat.mod_lt _ (by norm_num))).2.1
    split
    · rename_i h0
      simp only [List.foldl_cons, hd]
      congr 1
      omega
    · rename_i h0
      rw [ih _ _ (by omega)]
      simp only [List.foldl_cons, hd]
      congr 1
      omega

theorem toDigitsCore_ne_nil (fuel : Nat) : ∀ (n : Nat) (ds : List Char), n < fuel →
    Nat.toDigitsCore 10 fuel n ds ≠ [] := by
  induction fuel with
  | zero => intro n ds h; omega
  | succ fuel ih =>
    intro n ds h
    simp only [Nat.toDigitsCore]
    split
    · simp
    · exact ih _ _ (by omega)

theorem scanInt_digits (l : List Char) (hne : l ≠ [])
    (hall : ∀ c ∈ l, ∃ k, k < 10 ∧ c = Nat.digitChar k) :
    scanInt l = (if (digitsValue l : Int) < 2 ^ 63 then some (digitsValue l : Int) else none) ∧
    scanInt ('-' :: l) =
      (if -(2 ^ 63) ≤ -(digitsValue l : Int) then some (-(digitsValue l : Int)) else none) := by
  have htw : l.takeWhile isDecimalDigit = l := by
    rw [List.takeWhile_eq_self_iff]
    intro c hc
    obtain ⟨k, hk, rfl⟩ := hall c hc
    exact (digitChar_props k hk).1
  cases l with
  | nil => exact absurd rfl hne
  | cons c cs =>
    obtain ⟨k, hk, hck⟩ := hall c (List.mem_cons_self _ _)
    obtain ⟨_, _, hsp, hnl, hminus, hplus⟩ := digitChar_props k hk
    rw [← hck] at hsp hnl hminus hplus
    have hpos : (0 : Int) ≤ (digitsValue (c :: cs) : Int) := Int.ofNat_nonneg _
    constructor
    · have h1 : skipSpace (c :: cs) = some (c :: cs) := by simp [skipSpace, hnl, hsp]
      have h2 : acceptSign (c :: cs) = (false, c :: cs) := by simp [acceptSign, hminus, hplus]
      simp only [scanInt, h1, h2, htw]
      rw [if_neg hne]
      by_cases hr : (digitsValue (c :: cs) : Int) < 2 ^ 63
      · rw [if_pos hr]
        exact if_pos ⟨by simp only [Bool.false_eq_true, if_false]; omega,
          by simp only [Bool.false_eq_true, if_false]; exact hr⟩
      · rw [if_neg hr]
        exact if_neg (fun h => hr (by simpa only [Bool.false_eq_true, if_false] using h.2))
    · have h1 : skipSpace ('-' :: c :: cs) = some ('-' :: c :: cs) := by
        simp [skipSpace, show isSpace '-' = false by decide]
      have h2 : acceptSign ('-' :: c :: cs) = (true, c :: cs) := by simp [acceptSign]
      simp only [scanInt, h1, h2, htw]
      rw [if_neg hne]
      by_cases hr : -(2 ^ 63 : Int) ≤ -(digitsValue (c :: cs) : Int)
      · rw [if_pos hr]
        exact if_pos ⟨by simp only [if_true]; exact hr, by simp only [if_true]; omega⟩
      · rw [if_neg hr]
        exact if_neg (fun h => hr (by simpa only [if_true] using h.1))

theorem toDigits_props (m : Nat) :
    Nat.toDigits 10 m ≠ [] ∧ (∀ c ∈ Nat.toDigits 10 m, ∃ k, k < 10 ∧ c = Nat.digitChar k) ∧
      digitsValue (Nat.toDigits 10 m) = m := by
  refine ⟨toDigitsCore_ne_nil _ _ _ (Nat.lt_succ_self m), fun c hc => ?_, ?_⟩
  · rcases toDigitsCore_mem _ _ _ c hc with h | h
    · exact h
    · simp at h
  · unfold digitsValue Nat.toDigits
    rw [toDigitsCore_value _ _ _ (Nat.lt_succ_self m)]
    rfl

theorem atoi_toString (id : Int) :
    atoi (toString id) = if -(2 ^ 63) ≤ id ∧ id < 2 ^ 63 then id else 0 := by
  unfold atoi
  cases id with
  | ofNat m =>
    obtain ⟨hne, hall, hval⟩ := toDigits_props m
    have hd : (toString (Int.ofNat m)).data = Nat.toDigits 10 m := rfl
    rw [hd, (scanInt_digits _ hne hall).1, hval]
    have h0 : -(2 ^ 63 : Int) ≤ Int.ofNat m := by
      have : (0 : Int) ≤ Int.ofNat m := Int.ofNat_nonneg _
      omega
    change (if (m : Int) < 2 ^ 63 then some (m : Int) else none).getD 0 =
      if -(2 ^ 63) ≤ (m : Int) ∧ (m : Int) < 2 ^ 63 then (m : Int) else 0
    change -(2 ^ 63 : Int) ≤ (m : Int) at h0
    by_cases hr : (m : Int) < 2 ^ 63
    · rw [if_pos hr, if_pos ⟨h0, hr⟩]
      rfl
    · rw [if_neg hr, if_neg (fun h => hr h.2)]
      rfl
  | negSucc m =>
    obtain ⟨hne, hall, hval⟩ := toDigits_props (m + 1)
    have hd : (toString (Int.negSucc m)).data = '-' :: Nat.toDigits 10 (m + 1) := rfl
    rw [hd, (scanInt_digits _ hne hall).2, hval]
    have heq : Int.negSucc m = -((m + 1 : Nat) : Int) := rfl
    rw [heq]
    have hlt : -((m + 1 : Nat) : Int) < 2 ^ 63 := by
      have : (0 : Int) ≤ ((m + 1 : Nat) : Int) := Int.ofNat_nonneg _
      omega
    by_cases hr : -(2 ^ 63 : Int) ≤ -((m + 1 : Nat) : Int)
    · rw [if_pos hr, if_pos ⟨hr, hlt⟩]
      rfl
    · rw [if_neg hr, if_neg (fun h => hr h.1)]
      rfl

theorem toString_int_ne_empty (id : Int) : toString id ≠ "" := by
  intro h
  have hd : (toString id).data = [] := by rw [h]
  cases id with
  | ofNat m =>
    have : (toString (Int.ofNat m)).data = Nat.toDigits 10 m := rfl
    rw [this] at hd
    exact (toDigits_props m).1 hd
  | negSucc m =>
    have : (toString (Int.negSucc m)).data = '-' :: Nat.toDigits 10 (m + 1) := rfl
    rw [this] at hd
    cases hd

/-! ### The invariant holds in every reachable state -/

theorem wrapInt_range (x : Int) : -(2 ^ 63) ≤ wrapInt x ∧ wrapInt x < 2 ^ 63 := by
  unfold wrapInt
  have h1 := Int.emod_nonneg (x + 2 ^ 63) (show (2 ^ 64 : Int) ≠ 0 by norm_num)
  have h2 := Int.emod_lt_of_pos (x + 2 ^ 63) (show (0 : Int) < 2 ^ 64 by norm_num)
  constructor <;> omega

theorem updateAt_length (f : Cell → Cell) (a : Nat) (l : List Cell) :
    (updateAt f a l).length = l.length := by
  induction l generalizing a with
  | nil => cases a <;> rfl
  | cons c cs ih =>
    cases a with
    | zero => rfl
    | succ a => simp [updateAt, ih]

theorem updateAt_getElem? (f : Cell → Cell) (a b : Nat) (l : List Cell) :
    (updateAt f a l)[b]? = if b = a then (l[b]?).map f else l[b]? := by
  induction l generalizing a b with
  | nil => cases a <;> simp [updateAt]
  | cons c cs ih =>
    cases a with
    | zero =>
      cases b with
      | zero => simp [updateAt]
      | succ b => simp [updateAt]
    | succ a =>
      cases b with
      | zero => simp [updateAt]
      | succ b => simp [updateAt, ih]

theorem procWrite_jobID (sm : StoreMaster) (dl : Fetcher) (c : Cell) :
    (procWrite sm dl c).run.job.JobID = c.run.job.JobID := by
  unfold procWrite
  split
  · simp [finish]
  · split <;> simp [setFailed]
  · rfl
  · split <;> simp [setFailed]
  · simp [appendError]
  · simp [appendError]
  · rfl

theorem finish_jobSound (r : Run) (h : jobSound r.job) : jobSound (finish r).job := by
  obtain ⟨_, h2⟩ := h
  by_cases hf : r.job.Status = "failed"
  · exact ⟨Or.inr (Or.inr (by simp [finish, hf])), fun _ => by simp [finish, hf]⟩
  · refine ⟨Or.inr (Or.inl (by simp [finish, hf])), fun hne => ?_⟩
    exact absurd (h2 (by simpa [finish] using hne)) hf

theorem setFailed_jobSound (r : Run) : jobSound (setFailed r).job :=
  ⟨Or.inr (Or.inr rfl), fun _ => rfl⟩

theorem appendError_jobSound (r : Run) (e : JobError) (h : r.job.Status = "failed") :
    jobSound (appendError r e).job :=
  ⟨Or.inr (Or.inr h), fun _ => h⟩

theorem procWrite_cellSound (sm : StoreMaster) (dl : Fetcher) (c : Cell) (h : cellSound c) :
    cellSound (procWrite sm dl c) := by
  obtain ⟨hj, hp⟩ := h
  unfold procWrite
  split
  · exact ⟨finish_jobSound _ hj, fun hpend => by simp [ProcPC.pending] at hpend⟩
  · split
    · exact ⟨setFailed_jobSound _, fun _ => rfl⟩
    · exact ⟨hj, fun hpend => by simp [ProcPC.pending] at hpend⟩
  · exact ⟨hj, fun hpend => by simp [ProcPC.pending] at hpend⟩
  · split
    · exact ⟨setFailed_jobSound _, fun _ => rfl⟩
    · exact ⟨hj, fun hpend => by simp [ProcPC.pending] at hpend⟩
  · rename_i hpc
    have hf := hp (by rw [hpc]; rfl)
    exact ⟨appendError_jobSound _ _ hf, fun hpend => by simp [ProcPC.pending] at hpend⟩
  · rename_i hpc
    have hf := hp (by rw [hpc]; rfl)
    exact ⟨appendError_jobSound _ _ hf, fun hpend => by simp [ProcPC.pending] at hpend⟩
  · exact ⟨hj, hp⟩

/-- A step of `procStep` is a write of `procWrite` followed, when that write opened a
critical section, by the write that closes it. -/
theorem procStep_eq_settle (sm : StoreMaster) (dl : Fetcher) (c : Cell) :
    procStep sm dl c = settle sm dl (procWrite sm dl c) := by
  rcases c with ⟨r, pc⟩
  cases pc with
  | outer visits =>
    cases visits with
    | nil => simp [procStep, procWrite, settle, ProcPC.pending]
    | cons v vs =>
      cases h : sm v.StoreID with
      | none =>
        simp [procStep, procWrite, settle, ProcPC.pending, h, recordError, setFailed,
          appendError]
      | some info => simp [procStep, procWrite, settle, ProcPC.pending, h]
  | inner sid urls vs =>
    cases urls with
    | nil => simp [procStep, procWrite, settle, ProcPC.pending]
    | cons u us =>
      cases h : dl u with
      | error err =>
        simp [procStep, procWrite, settle, ProcPC.pending, h, processImage, recordError,
          setFailed, appendError]
      | ok img => simp [procStep, procWrite, settle, ProcPC.pending, h, processImage]
  | outerAppend e vs => simp [procStep, procWrite, settle, ProcPC.pending]
  | innerAppend e sid us vs => simp [procStep, procWrite, settle, ProcPC.pending]
  | done => simp [procStep, procWrite, settle, ProcPC.pending]

theorem wf_init : initServer.wf := by
  refine ⟨fun _ => rfl, ?_, ?_, ?_⟩
  · intro _ id
    have : ¬ (1 ≤ id ∧ id ≤ ((initServer.heap.length : Nat) : Int)) := by
      simp only [initServer, List.length_nil]
      push_cast
      omega
    rw [if_neg this]
    rfl
  · intro _ a c h; simp [initServer] at h
  · intro a c h; simp [initServer] at h

theorem getElem?_snoc (l : List Cell) (x c : Cell) (a : Nat)
    (h : (l ++ [x])[a]? = some c) : (a < l.length ∧ l[a]? = some c) ∨ (a = l.length ∧ c = x) := by
  by_cases hlt : a < l.length
  · rw [List.getElem?_append_left hlt] at h
    exact Or.inl ⟨hlt, h⟩
  · rw [List.getElem?_append_right (by omega)] at h
    cases hk : a - l.length with
    | zero =>
      rw [hk] at h
      exact Or.inr ⟨by omega, by simpa using h.symm⟩
    | succ k => rw [hk] at h; simp at h

theorem wf_submit (s : Server) (r : SubmitRequest) (h : s.wf) : (submitJobHandler s r).1.wf := by
  unfold submitJobHandler
  by_cases hm : r.Method ≠ "POST"
  · simpa [hm] using h
  · rcases hb : r.Body with _ | ⟨count, visits⟩
    · simpa [hm] using h
    · by_cases hc : count ≠ (visits.length : Int)
      · simpa [hm, hc] using h
      · simp only [hm, hc, if_false]
        have hlen : ((s.heap ++ [spawn (newJob (wrapInt (s.jobIDSeq + 1)) visits)]).length : Int)
            = (s.heap.length : Int) + 1 := by
          simp
        refine ⟨?_, ?_, ?_, ?_⟩
        · intro hb
          rw [hlen] at hb ⊢
          rw [h.counter (by omega)]
          exact wrapInt_eq_self (by omega) (by omega)
        · intro hb id
          rw [hlen] at hb ⊢
          have hctr := h.counter (by omega)
          have hw : wrapInt (s.jobIDSeq + 1) = (s.heap.length : Int) + 1 := by
            rw [hctr]; exact wrapInt_eq_self (by omega) (by omega)
          simp only [mapSet, mapGet, hw]
          by_cases hid : id = (s.heap.length : Int) + 1
          · rw [if_pos hid, if_pos (by omega)]
            congr 1
            omega
          · rw [if_neg hid, h.keys (by omega) id]
            by_cases hr : 1 ≤ id ∧ id ≤ (s.heap.length : Int)
            · rw [if_pos hr, if_pos (by omega)]
            · rw [if_neg hr, if_neg (by omega)]
        · intro hb a c hget
          rw [hlen] at hb
          rcases getElem?_snoc _ _ _ _ hget with ⟨_, hold⟩ | ⟨ha, hc⟩
          · exact h.ids (by omega) a c hold
          · rw [hc, ha]
            show wrapInt (s.jobIDSeq + 1) = (s.heap.length : Int) + 1
            rw [h.counter (by omega)]
            exact wrapInt_eq_self (by omega) (by omega)
        · intro a c hget
          rcases getElem?_snoc _ _ _ _ hget with ⟨_, hold⟩ | ⟨_, hc⟩
          · exact h.cells a c hold
          · rw [hc]
            exact ⟨⟨Or.inl rfl, fun hne => absurd rfl hne⟩,
              fun hpend => by simp [spawn, ProcPC.pending] at hpend⟩

theorem wf_write (sm : StoreMaster) (dl : Fetcher) (s : Server) (a : Nat) (h : s.wf) :
    (writeStep sm dl s a).wf := by
  unfold writeStep
  refine ⟨?_, ?_, ?_, ?_⟩
  · intro hb
    simp only [updateAt_length] at hb ⊢
    exact h.counter hb
  · intro hb id
    simp only [updateAt_length] at hb ⊢
    exact h.keys hb id
  · intro hb b c hget
    simp only [updateAt_length] at hb
    simp only [updateAt_getElem?] at hget
    by_cases hba : b = a
    · rw [if_pos hba] at hget
      cases hc0 : s.heap[b]? with
      | none => rw [hc0] at hget; simp at hget
      | some c0 =>
        rw [hc0] at hget
        simp only [Option.map_some', Option.some.injEq] at hget
        rw [← hget, procWrite_jobID]
        exact h.ids hb b c0 hc0
    · rw [if_neg hba] at hget
      exact h.ids hb b c hget
  · intro b c hget
    simp only [updateAt_getElem?] at hget
    by_cases hba : b = a
    · rw [if_pos hba] at hget
      cases hc0 : s.heap[b]? with
      | none => rw [hc0] at hget; simp at hget
      | some c0 =>
        rw [hc0] at hget
        simp only [Option.map_some', Option.some.injEq] at hget
        rw [← hget]
        exact procWrite_cellSound sm dl c0 (h.cells b c0 hc0)
    · rw [if_neg hba] at hget
      exact h.cells b c hget

theorem wf_foldl (sm : StoreMaster) (evs : List Event) :
    ∀ s : Server, s.wf → (evs.foldl (applyEvent sm) s).wf := by
  induction evs with
  | nil => intro s h; exact h
  | cons e es ih =>
    intro s h
    rw [List.foldl_cons]
    apply ih
    cases e with
    | submit r => exact wf_submit s r h
    | process a dl => exact wf_write sm dl s a h

theorem wf_reach (sm : StoreMaster) (evs : List Event) : (reach sm evs).wf :=
  wf_foldl sm evs initServer wf_init

/-! ### The perimeter -/

/-- The `int` arithmetic of `perimeter` gives twice the sum of width and height when that
sum lies between -2^62 and 2^62. -/
theorem perimeter_eq_expected (img : Image)
    (h : -(2 ^ 62) ≤ img.Dx + img.Dy ∧ img.Dx + img.Dy < 2 ^ 62) :
    perimeter img = expectedPerimeter img.Dx img.Dy := by
  unfold perimeter expectedPerimeter
  rw [wrapInt_eq_self (x := img.Dx + img.Dy) (by omega) (by omega)]
  exact wrapInt_eq_self (by omega) (by omega)

theorem visitPrinted_eq_expected (sm : StoreMaster) (dl : Fetcher) (v : Visit)
    (hdim : ∀ u ∈ v.ImageURLs, ∀ img, dl u = Except.ok img →
      -(2 ^ 62) ≤ img.Dx + img.Dy ∧ img.Dx + img.Dy < 2 ^ 62) :
    visitPrinted sm dl v = expectedPrinted sm dl v := by
  unfold visitPrinted expectedPrinted
  cases sm v.StoreID with
  | none => rfl
  | some info =>
    simp only
    apply List.filterMap_congr
    intro u hu
    cases hd : dl u with
    | error err => rfl
    | ok img => simp only [perimeter_eq_expected img (hdim u hu img hd)]

theorem flatMap_visitPrinted (sm : StoreMaster) (dl : Fetcher) (visits : List Visit)
    (hdim : ∀ v ∈ visits, ∀ u ∈ v.ImageURLs, ∀ img, dl u = Except.ok img →
      -(2 ^ 62) ≤ img.Dx + img.Dy ∧ img.Dx + img.Dy < 2 ^ 62) :
    visits.flatMap (visitPrinted sm dl) = visits.flatMap (expectedPrinted sm dl) := by
  induction visits with
  | nil => rfl
  | cons v vs ih =>
    rw [List.flatMap_cons, List.flatMap_cons,
      visitPrinted_eq_expected sm dl v (hdim v (List.mem_cons_self _ _)),
      ih (fun w hw => hdim w (List.mem_cons_of_mem _ hw))]

theorem exampleFetcher_image (u : String) (img : Image)
    (h : exampleFetcher u = Except.ok img) : img = ⟨100, 50⟩ := by
  unfold exampleFetcher at h
  split at h
  · injection h with h; exact h.symm
  · cases h

/-! ### The claims -/

/-- C1. Submissions handled one after another from the initial registry: the k-th accepted
submission is answered with identifier k (counting from 1), the issued identifiers are
strictly increasing and pairwise distinct, and the counter ends at the number of
accepted submissions, so a rejected submission consumes none. The counter is a Go `int`;
the list of submissions is shorter than 2^63. -/
theorem submit_ids_sequential (reqs : List SubmitRequest) (hlen : reqs.length < 2 ^ 63) :
    (∀ k : Nat, k < (issuedIDs (submitAll initServer reqs).2).length →
        (issuedIDs (submitAll initServer reqs).2)[k]? = some ((k : Int) + 1)) ∧
      (issuedIDs (submitAll initServer reqs).2).Pairwise (· < ·) ∧
      (issuedIDs (submitAll initServer reqs).2).Nodup ∧
      (submitAll initServer reqs).1.jobIDSeq =
        ((issuedIDs (submitAll initServer reqs).2).length : Int) := by
  have hlen2 : ((reqs.length : Nat) : Int) < 2 ^ 63 := by exact_mod_cast hlen
  obtain ⟨m, h1, h2, _⟩ := submitAll_issued 0 reqs initServer (by simp [initServer])
    (by simp only [initServer]; omega) (by simp [initServer])
  rw [h1, idsFrom_length]
  refine ⟨fun k hk => ?_, idsFrom_pairwise 0 m, ?_, by simpa using h2⟩
  · rw [idsFrom_getElem? 0 m k hk]
    simp
  · exact (idsFrom_pairwise 0 m).imp (fun h => ne_of_lt h)

/-- Witness for C1: three submissions, the second one rejected for its count. -/
theorem submit_ids_sequential_witness :
    issuedIDs (submitAll initServer
      [⟨"POST", some (0, [])⟩, ⟨"POST", some (1, [])⟩, ⟨"POST", some (0, [])⟩]).2 = [1, 2] ∧
    (submitAll initServer
      [⟨"POST", some (0, [])⟩, ⟨"POST", some (1, [])⟩, ⟨"POST", some (0, [])⟩]).1.jobIDSeq
        = 2 := by
  have h := submit_ids_sequential
    [⟨"POST", some (0, [])⟩, ⟨"POST", some (1, [])⟩, ⟨"POST", some (0, [])⟩] (by norm_num)
  refine ⟨by decide, ?_⟩
  rw [h.2.2.2]
  decide

/-- C2. A POST submission whose body decodes to a count different from the number of
visits is answered 400 "Count does not match the number of visits" and leaves the whole
state as it was: the map `jobs`, the counter `jobIDSeq`, and the jobs and processors. -/
theorem submit_count_mismatch (s : Server) (count : Int) (visits : List Visit)
    (h : count ≠ (visits.length : Int)) :
    submitJobHandler s ⟨"POST", some (count, visits)⟩ =
      (s, ⟨400, ResponseBody.text "Count does not match the number of visits"⟩) := by
  simp [submitJobHandler, h]

/-- Witness for C2: count 2 with a single visit, on the initial registry. -/
theorem submit_count_mismatch_witness :
    submitJobHandler initServer ⟨"POST", some (2, [⟨"S1", [], "t"⟩])⟩ =
      (initServer, ⟨400, ResponseBody.text "Count does not match the number of visits"⟩) :=
  submit_count_mismatch initServer 2 [⟨"S1", [], "t"⟩] (by decide)

/-- C3. When every visit names a store of the Store Directory and the fetcher succeeds on
every image URL of every visit, `processJob` run on the newly created job ends with
status "completed" and an empty error list. -/
theorem processJob_all_succeed (sm : StoreMaster) (dl : Fetcher) (id : Int)
    (visits : List Visit)
    (hstore : ∀ v ∈ visits, sm v.StoreID ≠ none)
    (hfetch : ∀ v ∈ visits, ∀ u ∈ v.ImageURLs, ∃ img, dl u = Except.ok img) :
    (processJob sm dl (newJob id visits)).job.Status = "completed" ∧
      (processJob sm dl (newJob id visits)).job.Errors = [] := by
  have hnil : visits.flatMap (expectedErrors sm dl) = [] := by
    rw [List.flatMap_eq_nil_iff]
    intro v hv
    unfold expectedErrors
    cases h : sm v.StoreID with
    | none => exact absurd h (hstore v hv)
    | some info =>
      simp only [List.filterMap_eq_nil_iff]
      intro u hu
      obtain ⟨img, himg⟩ := hfetch v hv u hu
      simp [himg]
  rw [processJob_newJob]
  simp [hnil]

/-- Witness for C3: one visit to the known store with two fetchable images. -/
theorem processJob_all_succeed_witness :
    (processJob exampleStores exampleFetcher (newJob 1 [⟨"S2", ["ok", "ok"], "t"⟩])).job.Status
        = "completed" ∧
      (processJob exampleStores exampleFetcher (newJob 1 [⟨"S2", ["ok", "ok"], "t"⟩])).job.Errors
        = [] :=
  processJob_all_succeed exampleStores exampleFetcher 1 [⟨"S2", ["ok", "ok"], "t"⟩]
    (by decide) (by simp [exampleFetcher])

/-- C4. When a visit of the job names a store that is absent from the Store Directory,
`processJob` ends with status "failed"; the error for that store with message
"Invalid store_id" occurs in the error list once per visit naming that store; the fetcher
is called for no URL of such a visit; and the calls made are, in order, one for each entry
of the URL list of every visit whose store is known. -/
theorem processJob_unknown_store (sm : StoreMaster) (dl : Fetcher) (id : Int)
    (visits : List Visit) (v : Visit) (hv : v ∈ visits) (hs : sm v.StoreID = none) :
    (processJob sm dl (newJob id visits)).job.Status = "failed" ∧
      (processJob sm dl (newJob id visits)).job.Errors.count ⟨v.StoreID, "Invalid store_id"⟩ =
        visits.countP (fun w => w.StoreID = v.StoreID) ∧
      (∀ url, (v.StoreID, url) ∉ (processJob sm dl (newJob id visits)).fetched) ∧
      (processJob sm dl (newJob id visits)).fetched = visits.flatMap (expectedFetched sm) := by
  have hmem : (⟨v.StoreID, "Invalid store_id"⟩ : JobError) ∈
      visits.flatMap (expectedErrors sm dl) := by
    rw [List.mem_flatMap]
    exact ⟨v, hv, by simp [expectedErrors, hs]⟩
  rw [processJob_newJob]
  refine ⟨?_, count_invalid_store sm dl v.StoreID hs visits, ?_, rfl⟩
  · have hne : visits.flatMap (expectedErrors sm dl) ≠ [] := List.ne_nil_of_mem hmem
    simp [hne]
  · intro url hmem2
    exact expectedFetched_known sm visits _ hmem2 hs

/-- Witness for C4: an unknown store between two visits to a known one. -/
theorem processJob_unknown_store_witness :
    (processJob exampleStores exampleFetcher (newJob 1
        [⟨"S2", ["ok"], "t"⟩, ⟨"S1", ["ok"], "t"⟩, ⟨"S2", ["bad", "ok"], "t"⟩])).fetched
      = [("S2", "ok"), ("S2", "bad"), ("S2", "ok")] := by
  rw [(processJob_unknown_store exampleStores exampleFetcher 1
        [⟨"S2", ["ok"], "t"⟩, ⟨"S1", ["ok"], "t"⟩, ⟨"S2", ["bad", "ok"], "t"⟩]
        ⟨"S1", ["ok"], "t"⟩ (by decide) (by decide)).2.2.2]
  decide

/-- C5. When the fetcher fails with cause `c` on an image URL of a visit whose store is
known, `processJob` ends with status "failed" and the error list contains the error for
that store with message "Failed to download image: " followed by `c`; neither the visit
nor the job is cut short: the calls of the fetcher are, in order, one for each entry of
the URL list of every visit whose store is known, so every URL of such a visit is fetched. -/
theorem processJob_failed_download (sm : StoreMaster) (dl : Fetcher) (id : Int)
    (visits : List Visit) (v : Visit) (u c : String) (hv : v ∈ visits)
    (hs : sm v.StoreID ≠ none) (hu : u ∈ v.ImageURLs) (hc : dl u = Except.error c) :
    (processJob sm dl (newJob id visits)).job.Status = "failed" ∧
      (⟨v.StoreID, "Failed to download image: " ++ c⟩ : JobError) ∈
        (processJob sm dl (newJob id visits)).job.Errors ∧
      (processJob sm dl (newJob id visits)).fetched = visits.flatMap (expectedFetched sm) ∧
      (∀ w ∈ visits, sm w.StoreID ≠ none → ∀ x ∈ w.ImageURLs,
        (w.StoreID, x) ∈ (processJob sm dl (newJob id visits)).fetched) := by
  have hmem : (⟨v.StoreID, "Failed to download image: " ++ c⟩ : JobError) ∈
      visits.flatMap (expectedErrors sm dl) := by
    rw [List.mem_flatMap]
    refine ⟨v, hv, ?_⟩
    unfold expectedErrors
    cases h : sm v.StoreID with
    | none => exact absurd h hs
    | some info =>
      simp only [List.mem_filterMap]
      exact ⟨u, hu, by simp [hc]⟩
  rw [processJob_newJob]
  refine ⟨?_, hmem, rfl, ?_⟩
  · have hne : visits.flatMap (expectedErrors sm dl) ≠ [] := List.ne_nil_of_mem hmem
    simp [hne]
  · intro w hw hws x hx
    simp only [List.mem_flatMap]
    refine ⟨w, hw, ?_⟩
    unfold expectedFetched
    cases h : sm w.StoreID with
    | none => exact absurd h hws
    | some info => simp only [List.mem_map]; exact ⟨x, hx, rfl⟩

/-- Witness for C5: the first image of the first visit fails; the rest is still fetched. -/
theorem processJob_failed_download_witness :
    (processJob exampleStores exampleFetcher (newJob 1
        [⟨"S2", ["bad", "ok"], "t"⟩, ⟨"S2", ["ok"], "t"⟩])).job.Errors
      = [⟨"S2", "Failed to download image: failed to download image: 404 Not Found"⟩] ∧
    (processJob exampleStores exampleFetcher (newJob 1
        [⟨"S2", ["bad", "ok"], "t"⟩, ⟨"S2", ["ok"], "t"⟩])).fetched
      = [("S2", "bad"), ("S2", "ok"), ("S2", "ok")] := by
  have h := processJob_failed_download exampleStores exampleFetcher 1
    [⟨"S2", ["bad", "ok"], "t"⟩, ⟨"S2", ["ok"], "t"⟩] ⟨"S2", ["bad", "ok"], "t"⟩ "bad"
    "failed to download image: 404 Not Found" (by decide) (by decide) (by decide) rfl
  refine ⟨by decide, ?_⟩
  rw [h.2.2.1]
  decide

/-- C6. The error list left by `processJob` on a new job is the concatenation, over the
visits in input order, of the single error "Invalid store_id" for a visit with an unknown
store and otherwise of the download errors of the failing URLs in the order of the URL
list. The printed results are the successfully fetched images of the visits with a known
store, in the same visit-then-URL order, each with the perimeter twice the sum of width
and height; here the images fetched for the job have a sum of width and height between
-2^62 and 2^62, which the `int` arithmetic of the code needs and every decoded image
satisfies (both decoders registered in `main.go` read dimensions below 2^31). -/
theorem processJob_order (sm : StoreMaster) (dl : Fetcher) (id : Int) (visits : List Visit) :
    (processJob sm dl (newJob id visits)).job.Errors = visits.flatMap (expectedErrors sm dl) ∧
      ((∀ v ∈ visits, ∀ u ∈ v.ImageURLs, ∀ img, dl u = Except.ok img →
          -(2 ^ 62) ≤ img.Dx + img.Dy ∧ img.Dx + img.Dy < 2 ^ 62) →
        (processJob sm dl (newJob id visits)).printed =
          visits.flatMap (expectedPrinted sm dl)) := by
  rw [processJob_newJob]
  exact ⟨rfl, fun hdim => flatMap_visitPrinted sm dl visits hdim⟩

/-- Witness for C6: an unknown store, then a known one with a 100 by 50 image and a failed
download; the one printed result carries the perimeter 300. -/
theorem processJob_order_witness :
    (processJob exampleStores exampleFetcher (newJob 1
        [⟨"S1", ["ok"], "t"⟩, ⟨"S2", ["ok", "bad"], "t"⟩])).printed
      = [⟨"S2", "ok", 300⟩] ∧
    (processJob exampleStores exampleFetcher (newJob 1
        [⟨"S1", ["ok"], "t"⟩, ⟨"S2", ["ok", "bad"], "t"⟩])).job.Errors
      = [⟨"S1", "Invalid store_id"⟩,
         ⟨"S2", "Failed to download image: failed to download image: 404 Not Found"⟩] ∧
    perimeter ⟨100, 50⟩ = 300 := by
  have h := processJob_order exampleStores exampleFetcher 1
    [⟨"S1", ["ok"], "t"⟩, ⟨"S2", ["ok", "bad"], "t"⟩]
  refine ⟨?_, ?_, by decide⟩
  · rw [h.2 (fun v _ u _ img himg => by rw [exampleFetcher_image u img himg]; decide)]
    decide
  · rw [h.1]
    decide

/-- C7. Along the run of `processJob` on a new job, state by state: the error list of a
state is a prefix of the error list of every later state; once the status is "failed" it
is "failed" in every later state; a state with status "completed" is preceded by a state
with status "ongoing" or "completed"; and the run ends, after `procCost` steps, in the
state `processJob` returns. -/
theorem processJob_run_monotone (sm : StoreMaster) (dl : Fetcher) (id : Int)
    (visits : List Visit) (i k : Nat) :
    (jobAt sm dl (newJob id visits) i).Errors <+:
        (jobAt sm dl (newJob id visits) (i + k)).Errors ∧
      ((jobAt sm dl (newJob id visits) i).Status = "failed" →
        (jobAt sm dl (newJob id visits) (i + k)).Status = "failed") ∧
      ((jobAt sm dl (newJob id visits) (i + 1)).Status = "completed" →
        (jobAt sm dl (newJob id visits) i).Status = "ongoing" ∨
        (jobAt sm dl (newJob id visits) i).Status = "completed") ∧
      procRun sm dl (newJob id visits) (procCost sm visits) =
        ⟨processJob sm dl (newJob id visits), ProcPC.done⟩ := by
  refine ⟨procRun_errors_mono sm dl _ i k, procRun_failed_mono sm dl _ i k, ?_,
    procRun_complete sm dl (newJob id visits)⟩
  intro h
  unfold jobAt at h
  rw [procRun_succ] at h
  exact procStep_completed sm dl _ (procRun_active sm dl id visits i) h

/-- The handler run alone: on a state that does not change, five steps of
`statusStep` end in the answer of `getJobStatusHandler`. -/
theorem statusStep_uninterrupted (s : Server) (r : StatusRequest) :
    (statusStep s r)^[5] StatusPC.start = StatusPC.replied (getJobStatusHandler s r) := by
  simp only [Function.iterate_succ, Function.iterate_zero, Function.comp_apply, id_eq]
  unfold getJobStatusHandler
  by_cases hm : r.Method ≠ "GET"
  · simp [statusStep, hm]
  · by_cases hj : r.jobid = ""
    · simp [statusStep, hm, hj]
    · cases hg : mapGet s.jobs (atoi r.jobid) with
      | none => simp [statusStep, hm, hj, hg]
      | some a =>
        cases hd : deref s a with
        | none => simp [statusStep, hm, hj, hg, hd]
        | some job =>
          by_cases hf : job.Status = "failed"
          · simp [statusStep, hm, hj, hg, hd, hf]
          · simp [statusStep, hm, hj, hg, hd, hf]

/-- C8, the code at the failing input: job 1 has one visit to an unknown store and its
processor has made the write of line 156 (`job.Status = "failed"`) but not yet the append
of line 157. The handler, which reads the job without its lock, answers status "failed"
with no `error` member; after the append it answers with the error. -/
theorem status_failed_without_errors :
    deref
        (reach exampleStores
          [Event.submit ⟨"POST", some (1, [⟨"S1", ["ok"], "t"⟩])⟩,
            Event.process 0 exampleFetcher]) 0 =
      some ⟨1, [⟨"S1", ["ok"], "t"⟩], "failed", []⟩ ∧
    getJobStatusHandler
        (reach exampleStores
          [Event.submit ⟨"POST", some (1, [⟨"S1", ["ok"], "t"⟩])⟩,
            Event.process 0 exampleFetcher])
        ⟨"GET", "1"⟩ =
      ⟨200, ResponseBody.statusResponse ⟨"failed", "1", []⟩⟩ ∧
    JobStatusResponse.errorField ⟨"failed", "1", []⟩ = none ∧
    getJobStatusHandler
        (reach exampleStores
          [Event.submit ⟨"POST", some (1, [⟨"S1", ["ok"], "t"⟩])⟩,
            Event.process 0 exampleFetcher, Event.process 0 exampleFetcher])
        ⟨"GET", "1"⟩ =
      ⟨200, ResponseBody.statusResponse ⟨"failed", "1", [⟨"S1", "Invalid store_id"⟩]⟩⟩ := by
  decide

/-- What `getJobStatusHandler` does answer, in every state reached by submissions and
writes of the processors with fewer than 2^63 jobs created, so that the identifiers issued
are 1 up to the number of jobs. For the decimal string of an integer `id` outside that
range the answer is 400 "Job not found". For `id` in that range the answer is 200 for the
job created with that identifier: its status, which is one of the three, the string as
`job_id`, and as errors the job's error list when the status is "failed" and none
otherwise; a job whose status is not "failed" has no errors. -/
theorem status_of_created (sm : StoreMaster) (evs : List Event) (id : Int)
    (hbound : ((reach sm evs).heap.length : Int) < 2 ^ 63) :
    (¬ (1 ≤ id ∧ id ≤ ((reach sm evs).heap.length : Int)) →
      getJobStatusHandler (reach sm evs) ⟨"GET", toString id⟩ =
        ⟨400, ResponseBody.text "Job not found"⟩) ∧
    (1 ≤ id ∧ id ≤ ((reach sm evs).heap.length : Int) →
      ∃ job, deref (reach sm evs) (id - 1).toNat = some job ∧ job.JobID = id ∧
        getJobStatusHandler (reach sm evs) ⟨"GET", toString id⟩ =
          ⟨200, ResponseBody.statusResponse
            ⟨job.Status, toString id, if job.Status = "failed" then job.Errors else []⟩⟩ ∧
        (job.Status = "ongoing" ∨ job.Status = "completed" ∨ job.Status = "failed") ∧
        (job.Status ≠ "failed" → job.Errors = [])) := by
  have hwf := wf_reach sm evs
  have hne := toString_int_ne_empty id
  have hatoi := atoi_toString id
  have hkeys := hwf.keys hbound
  constructor
  · intro hout
    have hget : mapGet (reach sm evs).jobs (atoi (toString id)) = none := by
      by_cases hr : -(2 ^ 63) ≤ id ∧ id < 2 ^ 63
      · rw [hatoi, if_pos hr, hkeys id, if_neg hout]
      · rw [hatoi, if_neg hr, hkeys 0, if_neg (by omega)]
    simp [getJobStatusHandler, hne, hget]
  · intro hin
    have hget : mapGet (reach sm evs).jobs (atoi (toString id)) = some (id - 1).toNat := by
      rw [hatoi, if_pos ⟨by omega, by omega⟩, hkeys id, if_pos hin]
    have hlt : (id - 1).toNat < (reach sm evs).heap.length := by omega
    have hcast : (((id - 1).toNat : Nat) : Int) = id - 1 := by omega
    generalize (id - 1).toNat = a at hget hlt hcast ⊢
    cases hc : (reach sm evs).heap[a]? with
    | none =>
      rw [List.getElem?_eq_none_iff] at hc
      omega
    | some c =>
      have hd : deref (reach sm evs) a = some c.run.job := by simp [deref, hc]
      have hid : c.run.job.JobID = id := by
        rw [hwf.ids hbound _ c hc]
        omega
      obtain ⟨⟨hst, herr⟩, _⟩ := hwf.cells _ c hc
      refine ⟨c.run.job, hd, hid, ?_, hst, fun hnf => ?_⟩
      · by_cases hf : c.run.job.Status = "failed"
        · simp [getJobStatusHandler, hne, hget, hd, hf]
        · simp [getJobStatusHandler, hne, hget, hd, hf]
      · by_contra hne2
        exact hnf (herr hne2)

/-- An instance of `status_of_created`: two jobs created, the second completed; the
identifier 2 is answered 200 and the identifier 3 is answered 400. -/
theorem status_of_created_witness :
    getJobStatusHandler
        (reach exampleStores
          [Event.submit ⟨"POST", some (1, [⟨"S1", ["ok"], "t"⟩])⟩,
            Event.submit ⟨"POST", some (0, [])⟩, Event.process 1 exampleFetcher])
        ⟨"GET", toString (3 : Int)⟩ =
      ⟨400, ResponseBody.text "Job not found"⟩ ∧
    getJobStatusHandler
        (reach exampleStores
          [Event.submit ⟨"POST", some (1, [⟨"S1", ["ok"], "t"⟩])⟩,
            Event.submit ⟨"POST", some (0, [])⟩, Event.process 1 exampleFetcher])
        ⟨"GET", "2"⟩ =
      ⟨200, ResponseBody.statusResponse ⟨"completed", "2", []⟩⟩ := by
  refine ⟨?_, by decide⟩
  exact (status_of_created exampleStores
    [Event.submit ⟨"POST", some (1, [⟨"S1", ["ok"], "t"⟩])⟩,
      Event.submit ⟨"POST", some (0, [])⟩, Event.process 1 exampleFetcher]
    3 (by decide)).1 (by decide)

/-- C9, the code at the failing input: job 1 was submitted and processed; the request
`jobid=1abc` is answered 200 with the status of job 1, because the scan stops at the
first rune that is no digit and keeps the value read so far. -/
theorem status_scans_leading_digits :
    atoi "1abc" = 1 ∧
    getJobStatusHandler
        (reach exampleStores
          [Event.submit ⟨"POST", some (0, [])⟩, Event.process 0 exampleFetcher])
        ⟨"GET", "1abc"⟩ =
      ⟨200, ResponseBody.statusResponse ⟨"completed", "1abc", []⟩⟩ := by
  decide

/-- C10, the code at the failing input: job 1 has one visit to an unknown store; the
handler reads the status, the processor records the error, and the handler goes on to
read the status again and the errors. The answer pairs the status "ongoing" with an
`error` member, which is the answer on neither of the two states the job went through. -/
theorem status_reads_interleave :
    (interleave exampleStores exampleFetcher ⟨"GET", "1"⟩
        [Action.status, Action.status, Action.process 0, Action.status, Action.status,
          Action.status]
        ((submitJobHandler initServer ⟨"POST", some (1, [⟨"S1", ["ok"], "t"⟩])⟩).1,
          StatusPC.start)).2 =
      StatusPC.replied
        ⟨200, ResponseBody.statusResponse ⟨"ongoing", "1", [⟨"S1", "Invalid store_id"⟩]⟩⟩ ∧
    getJobStatusHandler
        (submitJobHandler initServer ⟨"POST", some (1, [⟨"S1", ["ok"], "t"⟩])⟩).1
        ⟨"GET", "1"⟩ =
      ⟨200, ResponseBody.statusResponse ⟨"ongoing", "1", []⟩⟩ ∧
    getJobStatusHandler
        (processStep exampleStores exampleFetcher
          (submitJobHandler initServer ⟨"POST", some (1, [⟨"S1", ["ok"], "t"⟩])⟩).1 0)
        ⟨"GET", "1"⟩ =
      ⟨200, ResponseBody.statusResponse ⟨"failed", "1", [⟨"S1", "Invalid store_id"⟩]⟩⟩ := by
  decide

/-- A `jobid` on which the scan stores nothing (such as "abc") leaves `result` at zero;
in a reachable state with fewer than 2^63 jobs no job has identifier zero, and the
request is answered 400 "Job not found". -/
theorem status_scan_failure (sm : StoreMaster) (evs : List Event) (jobid : String)
    (hne : jobid ≠ "") (hscan : scanInt jobid.data = none)
    (hbound : ((reach sm evs).heap.length : Int) < 2 ^ 63) :
    getJobStatusHandler (reach sm evs) ⟨"GET", jobid⟩ =
      ⟨400, ResponseBody.text "Job not found"⟩ := by
  have hwf := wf_reach sm evs
  have h0 : atoi jobid = 0 := by simp [atoi, hscan]
  have hget : mapGet (reach sm evs).jobs (atoi jobid) = none := by
    rw [h0]
    rw [hwf.keys hbound 0, if_neg (by omega)]
  simp [getJobStatusHandler, hne, hget]

/-- The request `jobid=abc` after one accepted submission is answered 400. -/
theorem status_scan_failure_witness :
    getJobStatusHandler (reach exampleStores [Event.submit ⟨"POST", some (0, [])⟩])
      ⟨"GET", "abc"⟩ = ⟨400, ResponseBody.text "Job not found"⟩ :=
  status_scan_failure exampleStores [Event.submit ⟨"POST", some (0, [])⟩] "abc"
    (by decide) (by decide) (by decide)

end StoreImageService
